import Mathlib

/-!
Shallow embedding of the wheel-of-fortune game server (`src/server.js`).

JavaScript objects keyed by strings (the `rooms` registry and each room's
`players`) are modelled as association lists that preserve insertion order,
matching the JS iteration order for non-numeric string keys.  JS `Set` is
modelled as a duplicate-free list (insertion appends when absent, which is
all the code ever does).  The wheel draw and the generated room code are
random in the source; here they are explicit parameters of the action, so
a trace of actions captures every possible run of the server.
-/

namespace WofServer

/-- Segment kinds of the wheel catalog (`type` field in `WHEEL_SEGMENTS`). -/
inductive SegType where
  | money
  | loseTurn
  | bankrupt
deriving DecidableEq, Repr

/-- One entry of the wheel catalog. -/
structure WheelSegment where
  type : SegType
  value : Int
  label : String
deriving DecidableEq, Repr

/-- The fixed wheel catalog from the top of `server.js`. -/
def WHEEL_SEGMENTS : List WheelSegment :=
  [ ⟨SegType.money, 100, "+$100"⟩,
    ⟨SegType.money, 200, "+$200"⟩,
    ⟨SegType.money, 300, "+$300"⟩,
    ⟨SegType.loseTurn, 0, "LOSE TURN"⟩,
    ⟨SegType.money, 400, "+$400"⟩,
    ⟨SegType.bankrupt, 0, "BANKRUPT"⟩,
    ⟨SegType.money, 500, "+$500"⟩,
    ⟨SegType.money, 1000, "JACKPOT"⟩ ]

/-- Value of `room.currentSpin`: `\x7b index: idx, ...segment \x7d`. -/
structure Spin where
  index : Nat
  type : SegType
  value : Int
  label : String
deriving DecidableEq, Repr

/-- The four room statuses. -/
inductive Status where
  | waiting
  | spinning
  | guessing
  | solved
deriving DecidableEq, Repr

/-- A player record: `\x7b name, score \x7d`. -/
structure Player where
  name : String
  score : Int
deriving DecidableEq, Repr

/-- A room's state.  `players` is insertion-ordered (turn order);
`usedLetters` models the JS `Set` of revealed letters. -/
structure Room where
  hostId : String
  players : List (String × Player)
  category : String
  phrase : List Char
  maskedPhrase : List Char
  usedLetters : List Char
  currentPlayerId : Option String
  currentSpin : Option Spin
  status : Status
  solved : Bool
deriving DecidableEq, Repr

/-- The process-wide `rooms` object: room code to room state, in insertion
order. -/
abbrev Registry : Type := List (String × Room)

/-- Lookup in an association list (JS property read `obj[k]`; keys of a JS
object are unique, so first match is the match). -/
def lookupA {α : Type} : List (String × α) → String → Option α
  | [], _ => none
  | p :: t, k => if p.1 = k then some p.2 else lookupA t k

/-- JS property write `obj[k] = v`: replaces the value in place when the key
is present, otherwise appends a new entry at the end. -/
def assocSet {α : Type} : List (String × α) → String → α → List (String × α)
  | [], k, v => [(k, v)]
  | p :: t, k, v => if p.1 = k then (k, v) :: t else p :: assocSet t k v

/-- JS `delete obj[k]`. -/
def assocErase {α : Type} (l : List (String × α)) (k : String) :
    List (String × α) :=
  l.filter (fun p => p.1 ≠ k)

/-- Model of `buildMaskedPhrase(phrase, usedLetters)`: spaces pass through, revealed
letters pass through, everything else becomes the placeholder. -/
def buildMaskedPhrase (phrase : List Char) (usedLetters : List Char) :
    List Char :=
  phrase.map (fun ch =>
    if ch = ' ' then ' '
    else if ch ∈ usedLetters then ch
    else '_')

/-- Model of `nextPlayerId(room, currentId)`, taking the player list directly.
`currentId = none` models passing JS `null`; a `none` result of the
`findIdx?` models `indexOf` returning `-1`. -/
def nextPlayerId (players : List (String × Player))
    (currentId : Option String) : Option String :=
  if (players.map Prod.fst).isEmpty then none
  else
    (currentId.bind fun c =>
      (players.map Prod.fst).findIdx? (fun x => x = c)).elim
      ((players.map Prod.fst)[0]?)
      (fun idx =>
        (players.map Prod.fst)[(idx + 1) % (players.map Prod.fst).length]?)

/-- Whitespace stripped by JS `String.prototype.trim` (ASCII part). -/
def isJsWhitespace (c : Char) : Bool :=
  c = ' ' || c = '\t' || c = '\n' || c = '\r' || c = '\x0b' || c = '\x0c'

/-- JS `s.trim()` on a character list. -/
def jsTrim (s : List Char) : List Char :=
  ((s.dropWhile isJsWhitespace).reverse.dropWhile isJsWhitespace).reverse

/-- JS `s.toUpperCase()` restricted to the ASCII mapping used here. -/
def jsToUpper (s : List Char) : List Char :=
  s.map Char.toUpper

/-- Mutation `room.players[id].score += gain`. -/
def addScore (players : List (String × Player)) (conn : String)
    (gain : Int) : List (String × Player) :=
  players.map (fun p =>
    if p.1 = conn then (p.1, ⟨p.2.name, p.2.score + gain⟩) else p)

/-- Mutation `room.players[id].score = 0` (the bankrupt reset). -/
def zeroScore (players : List (String × Player)) (conn : String) :
    List (String × Player) :=
  players.map (fun p => if p.1 = conn then (p.1, ⟨p.2.name, 0⟩) else p)

/-- The room installed by the `createRoom` handler. -/
def newRoom (hostId : String) : Room :=
  { hostId := hostId
    players := []
    category := ""
    phrase := []
    maskedPhrase := []
    usedLetters := []
    currentPlayerId := none
    currentSpin := none
    status := Status.waiting
    solved := false }

/-- The `createRoom` handler: installs a fresh room under the generated code.
The random code is an explicit parameter. -/
def createRoom (rooms : Registry) (conn : String) (roomCode : String) :
    Registry :=
  assocSet rooms roomCode (newRoom conn)

/-- Acknowledgment of `joinRoom`. -/
inductive JoinAck where
  | failure (message : String)
  | ok
deriving DecidableEq, Repr

/-- The `joinRoom` handler: registry after the call together with the
acknowledgment sent to the caller. -/
def joinRoom (rooms : Registry) (conn : String) (roomCode : String)
    (name : String) : Registry × JoinAck :=
  match lookupA rooms roomCode with
  | none => (rooms, JoinAck.failure "Room not found")
  | some room =>
    if room.players.length ≥ 6 then
      (rooms, JoinAck.failure "Room full (max 6).")
    else
      let players := assocSet room.players conn ⟨name, 0⟩
      let current :=
        match room.currentPlayerId with
        | none => some conn
        | some c => some c
      (assocSet rooms roomCode
        { room with players := players, currentPlayerId := current },
       JoinAck.ok)

/-- The `setPuzzle` handler body for one room; `none` means the action was
silently ignored (non-host caller). -/
def setPuzzle (room : Room) (conn : String) (category : String)
    (phrase : List Char) : Option Room :=
  if room.hostId ≠ conn then none
  else
    let cleanPhrase := jsToUpper phrase
    some { room with
      category := category
      phrase := cleanPhrase
      usedLetters := []
      maskedPhrase := buildMaskedPhrase cleanPhrase []
      status := Status.waiting
      solved := false
      currentSpin := none }

/-- The `spinWheel` handler body for one room.  The random draw `idx` is an
explicit parameter (the source draws `idx < WHEEL_SEGMENTS.length`, so an
out-of-range parameter is treated as an impossible draw and ignored).
`none` means the action was silently ignored. -/
def spinWheel (room : Room) (conn : String) (idx : Nat) : Option Room :=
  if room.currentPlayerId ≠ some conn then none
  else if room.status = Status.spinning ∨ room.solved then none
  else
    match WHEEL_SEGMENTS[idx]? with
    | none => none
    | some segment =>
      let room1 := { room with
        currentSpin := some ⟨idx, segment.type, segment.value, segment.label⟩
        status := Status.spinning }
      match segment.type with
      | SegType.bankrupt =>
        some { room1 with
          players := zeroScore room1.players conn
          status := Status.waiting
          currentSpin := none
          currentPlayerId := nextPlayerId room1.players (some conn) }
      | SegType.loseTurn =>
        some { room1 with
          status := Status.waiting
          currentSpin := none
          currentPlayerId := nextPlayerId room1.players (some conn) }
      | SegType.money =>
        some { room1 with status := Status.guessing }

/-- Acknowledgment of `guessLetter`. -/
inductive GuessAck where
  | failure (message : String)
  | success (count : Nat)
deriving DecidableEq, Repr

/-- The `guessLetter` handler body for one room; `none` means the action was
silently ignored (wrong caller or wrong status).  Otherwise returns the
updated room and the acknowledgment. -/
def guessLetter (room : Room) (conn : String) (letter : List Char) :
    Option (Room × GuessAck) :=
  if room.currentPlayerId ≠ some conn then none
  else if room.status ≠ Status.guessing then none
  else
    match jsToUpper letter with
    | [u] =>
      if ¬('A' ≤ u ∧ u ≤ 'Z') then
        some (room, GuessAck.failure "Invalid letter.")
      else if u ∈ room.usedLetters then
        some (room, GuessAck.failure "Letter already used.")
      else
        let usedLetters := room.usedLetters ++ [u]
        let count := room.phrase.count u
        let pc : List (String × Player) × Option String :=
          match room.currentSpin with
          | some seg =>
            if count > 0 ∧ seg.type = SegType.money then
              (addScore room.players conn (seg.value * count),
               room.currentPlayerId)
            else if count = 0 then
              (room.players, nextPlayerId room.players (some conn))
            else (room.players, room.currentPlayerId)
          | none =>
            if count = 0 then
              (room.players, nextPlayerId room.players (some conn))
            else (room.players, room.currentPlayerId)
        let maskedPhrase := buildMaskedPhrase room.phrase usedLetters
        let room2 := { room with
          players := pc.1
          currentPlayerId := pc.2
          usedLetters := usedLetters
          maskedPhrase := maskedPhrase
          currentSpin := none
          status := Status.waiting }
        let room3 :=
          if maskedPhrase = room.phrase then
            { room2 with solved := true, status := Status.solved }
          else room2
        some (room3, GuessAck.success count)
    | _ => some (room, GuessAck.failure "Invalid letter.")

/-- The `solvePuzzle` handler body for one room; `none` means the action was
silently ignored.  The `Bool` in the result is the `correct` field of the
acknowledgment (its `success` field is always `true`). -/
def solvePuzzle (room : Room) (conn : String) (guess : List Char) :
    Option (Room × Bool) :=
  if room.currentPlayerId ≠ some conn then none
  else if room.solved then none
  else
    let cleanGuess := jsTrim (jsToUpper guess)
    if cleanGuess = room.phrase then
      some ({ room with
        solved := true
        status := Status.solved
        maskedPhrase := room.phrase
        players := addScore room.players conn 1000 }, true)
    else
      some ({ room with
        currentPlayerId := nextPlayerId room.players (some conn) }, false)

/-- The `nextPlayer` handler body for one room (host-only manual advance). -/
def nextPlayerAct (room : Room) (conn : String) : Option Room :=
  if room.hostId ≠ conn then none
  else
    some { room with
      currentPlayerId := nextPlayerId room.players room.currentPlayerId
      status := Status.waiting
      currentSpin := none }

/-- One room's part of the `disconnect` handler: `some` is the room kept in
the registry (unchanged when the connection was not a member), `none` means
the room became empty and was deleted. -/
def handleDisconnectRoom (room : Room) (conn : String) : Option Room :=
  match lookupA room.players conn with
  | none => some room
  | some _ =>
    let players := assocErase room.players conn
    let current :=
      if room.currentPlayerId = some conn then
        nextPlayerId players (some conn)
      else room.currentPlayerId
    if players.length = 0 then none
    else some { room with players := players, currentPlayerId := current }

/-- The `disconnect` handler: applied to every room of the registry. -/
def handleDisconnect (rooms : Registry) (conn : String) : Registry :=
  rooms.filterMap (fun p => (handleDisconnectRoom p.2 conn).map (fun r => (p.1, r)))

/-- One inbound action together with its nondeterministic inputs (the
generated room code, the wheel draw). -/
inductive Act where
  | create (conn roomCode : String)
  | join (conn roomCode name : String)
  | puzzle (conn roomCode category : String) (phrase : List Char)
  | spin (conn roomCode : String) (idx : Nat)
  | guess (conn roomCode : String) (letter : List Char)
  | solve (conn roomCode : String) (guess : List Char)
  | next (conn roomCode : String)
  | disconnect (conn : String)

/-- Apply a room-level handler to the registry at a given code: a missing
room or a silently ignored action leaves the registry unchanged. -/
def applyRoom (rooms : Registry) (roomCode : String)
    (f : Room → Option Room) : Registry :=
  match lookupA rooms roomCode with
  | none => rooms
  | some room =>
    match f room with
    | none => rooms
    | some r => assocSet rooms roomCode r

/-- One event-loop step of the server. -/
def stepAct (rooms : Registry) (a : Act) : Registry :=
  match a with
  | Act.create conn roomCode => createRoom rooms conn roomCode
  | Act.join conn roomCode name => (joinRoom rooms conn roomCode name).1
  | Act.puzzle conn roomCode category phrase =>
    applyRoom rooms roomCode (fun r => setPuzzle r conn category phrase)
  | Act.spin conn roomCode idx =>
    applyRoom rooms roomCode (fun r => spinWheel r conn idx)
  | Act.guess conn roomCode letter =>
    applyRoom rooms roomCode (fun r => (guessLetter r conn letter).map Prod.fst)
  | Act.solve conn roomCode guess =>
    applyRoom rooms roomCode (fun r => (solvePuzzle r conn guess).map Prod.fst)
  | Act.next conn roomCode =>
    applyRoom rooms roomCode (fun r => nextPlayerAct r conn)
  | Act.disconnect conn => handleDisconnect rooms conn

/-- Run a trace of actions from a registry. -/
def runActs (rooms : Registry) (acts : List Act) : Registry :=
  acts.foldl stepAct rooms

/-- A registry state of the live server: reached from the empty registry by
some trace of actions. -/
def ReachableRegistry (rooms : Registry) : Prop :=
  ∃ acts : List Act, runActs ([] : Registry) acts = rooms

/-! ## Helper lemmas about the association-list primitives -/

theorem findIdx?_some_lt {α : Type} (p : α → Bool) :
    ∀ (l : List α) (i : Nat), List.findIdx? p l = some i → i < l.length := by
  intro l
  induction l with
  | nil =>
    intro i h
    simp [List.findIdx?_nil] at h
  | cons a t ih =>
    intro i h
    rw [List.findIdx?_cons] at h
    by_cases hp : p a
    · simp [hp] at h
      simp [← h]
    · simp [hp] at h
      obtain ⟨j, hj, hji⟩ := h
      have := ih j hj
      simp only [List.length_cons]
      omega

theorem lookupA_assocSet_self {α : Type} (l : List (String × α)) (k : String)
    (v : α) : lookupA (assocSet l k v) k = some v := by
  induction l with
  | nil => simp [assocSet, lookupA]
  | cons a t ih =>
    by_cases ha : a.1 = k
    · simp [assocSet, lookupA, ha]
    · simp [assocSet, lookupA, ha, ih]

theorem lookupA_assocSet_ne {α : Type} (l : List (String × α)) (k k' : String)
    (v : α) (hne : k' ≠ k) : lookupA (assocSet l k v) k' = lookupA l k' := by
  induction l with
  | nil =>
    have hkk : ¬ (k = k') := fun h => hne h.symm
    simp [assocSet, lookupA, hkk]
  | cons a t ih =>
    by_cases ha : a.1 = k
    · have ha' : ¬ (k = k') := fun h => hne h.symm
      have ha'' : ¬ (a.1 = k') := by rw [ha]; exact ha'
      simp [assocSet, lookupA, ha, ha', ha'']
    · by_cases ha2 : a.1 = k'
      · simp [assocSet, lookupA, ha, ha2, hne]
      · simp [assocSet, lookupA, ha, ha2, ih]

theorem mem_assocSet {α : Type} (l : List (String × α)) (k : String) (v : α)
    (e : String × α) (he : e ∈ assocSet l k v) : e = (k, v) ∨ e ∈ l := by
  induction l with
  | nil =>
    simp [assocSet] at he
    left; exact he
  | cons a t ih =>
    by_cases ha : a.1 = k
    · simp only [assocSet, if_pos ha, List.mem_cons] at he
      rcases he with h | h
      · left; exact h
      · right; exact List.mem_cons_of_mem a h
    · simp only [assocSet, if_neg ha, List.mem_cons] at he
      rcases he with h | h
      · right; exact h ▸ List.mem_cons_self a t
      · rcases ih h with h2 | h2
        · left; exact h2
        · right; exact List.mem_cons_of_mem a h2

theorem length_assocSet_found {α : Type} (l : List (String × α)) (k : String)
    (v : α) (hmem : (lookupA l k).isSome) :
    (assocSet l k v).length = l.length := by
  induction l with
  | nil => simp [lookupA] at hmem
  | cons a t ih =>
    by_cases ha : a.1 = k
    · simp [assocSet, ha]
    · simp only [lookupA, if_neg ha] at hmem
      simp [assocSet, ha, ih hmem]

theorem length_assocSet_new {α : Type} (l : List (String × α)) (k : String)
    (v : α) (hmem : lookupA l k = none) :
    (assocSet l k v).length = l.length + 1 := by
  induction l with
  | nil => simp [assocSet]
  | cons a t ih =>
    by_cases ha : a.1 = k
    · simp [lookupA, ha] at hmem
    · simp only [lookupA, if_neg ha] at hmem
      simp [assocSet, ha, ih hmem]

theorem lookupA_addScore_self (players : List (String × Player))
    (conn : String) (g : Int) (pl : Player)
    (h : lookupA players conn = some pl) :
    lookupA (addScore players conn g) conn = some ⟨pl.name, pl.score + g⟩ := by
  induction players with
  | nil => simp [lookupA] at h
  | cons a t ih =>
    by_cases ha : a.1 = conn
    · simp only [lookupA, if_pos ha] at h
      have h2 := Option.some.inj h
      subst h2
      simp [addScore, lookupA, ha]
    · simp only [lookupA, if_neg ha] at h
      have h3 := ih h
      simp only [addScore] at h3
      simp [addScore, lookupA, ha, h3]

theorem lookupA_addScore_ne (players : List (String × Player))
    (conn c : String) (g : Int) (h : c ≠ conn) :
    lookupA (addScore players conn g) c = lookupA players c := by
  induction players with
  | nil => simp [addScore, lookupA]
  | cons a t ih =>
    have ih2 := ih
    simp only [addScore] at ih2 ⊢
    by_cases ha : a.1 = conn
    · have hac : ¬ (a.1 = c) := by rw [ha]; exact fun hh => h hh.symm
      have hac2 : ¬ (conn = c) := fun hh => h hh.symm
      simp [lookupA, ha, hac, hac2, ih2]
    · by_cases ha2 : a.1 = c
      · simp [lookupA, ha, ha2, h]
      · simp [lookupA, ha, ha2, ih2]

theorem lookupA_mem {α : Type} (l : List (String × α)) (k : String) (v : α)
    (h : lookupA l k = some v) : (k, v) ∈ l := by
  induction l with
  | nil => simp [lookupA] at h
  | cons a t ih =>
    by_cases ha : a.1 = k
    · simp only [lookupA, if_pos ha] at h
      have h2 := Option.some.inj h
      have ha2 : a = (k, v) := by
        cases a
        exact Prod.ext ha h2
      exact List.mem_cons.mpr (Or.inl ha2.symm)
    · simp only [lookupA, if_neg ha] at h
      exact List.mem_cons_of_mem a (ih h)

theorem lookupA_eq_none_of_not_mem {α : Type} (l : List (String × α))
    (k : String) (h : k ∉ l.map Prod.fst) : lookupA l k = none := by
  induction l with
  | nil => rfl
  | cons a t ih =>
    simp only [List.map_cons, List.mem_cons, not_or] at h
    have ha : ¬ (a.1 = k) := fun hh => h.1 hh.symm
    simp only [lookupA, if_neg ha]
    exact ih h.2

theorem mem_keys_handleDisconnect (rooms : Registry) (conn c : String)
    (h : c ∈ (handleDisconnect rooms conn).map Prod.fst) :
    c ∈ rooms.map Prod.fst := by
  unfold handleDisconnect at h
  rw [List.map_filterMap, List.mem_filterMap] at h
  obtain ⟨e, he, heq⟩ := h
  cases hd : handleDisconnectRoom e.2 conn with
  | none =>
    rw [hd] at heq
    simp at heq
  | some r =>
    rw [hd] at heq
    simp at heq
    rw [← heq]
    exact List.mem_map_of_mem Prod.fst he

theorem lookupA_handleDisconnect (rooms : Registry) (conn code : String)
    (hnd : (rooms.map Prod.fst).Nodup) :
    lookupA (handleDisconnect rooms conn) code =
      (lookupA rooms code).bind (fun room => handleDisconnectRoom room conn) := by
  induction rooms with
  | nil => rfl
  | cons a t ih =>
    simp only [List.map_cons, List.nodup_cons] at hnd
    obtain ⟨hnotin, hnd'⟩ := hnd
    unfold handleDisconnect
    cases hda : handleDisconnectRoom a.2 conn with
    | none =>
      rw [List.filterMap_cons_none (by rw [hda]; rfl)]
      by_cases hak : a.1 = code
      · have hnone : lookupA (handleDisconnect t conn) code = none := by
          apply lookupA_eq_none_of_not_mem
          intro hc
          exact hnotin (hak ▸ mem_keys_handleDisconnect t conn code hc)
        unfold handleDisconnect at hnone
        rw [hnone]
        simp [lookupA, hak, hda]
      · have := ih hnd'
        unfold handleDisconnect at this
        rw [this]
        simp [lookupA, hak]
    | some r =>
      rw [List.filterMap_cons_some (by rw [hda]; rfl)]
      by_cases hak : a.1 = code
      · simp [lookupA, hak, hda]
      · have := ih hnd'
        unfold handleDisconnect at this
        simp only [lookupA, if_neg hak]
        exact this

theorem assocErase_not_mem_keys {α : Type} (l : List (String × α))
    (k : String) : k ∉ (assocErase l k).map Prod.fst := by
  intro h
  obtain ⟨p, hp, hpk⟩ := List.mem_map.mp h
  have hkeep := List.of_mem_filter hp
  simp only [decide_eq_true_eq, ne_eq] at hkeep
  exact hkeep hpk

theorem assocErase_of_not_mem {α : Type} (l : List (String × α)) (k : String)
    (h : k ∉ l.map Prod.fst) : assocErase l k = l := by
  unfold assocErase
  rw [List.filter_eq_self]
  intro p hp
  simp only [ne_eq, decide_eq_true_eq]
  intro hpk
  exact h (hpk ▸ List.mem_map_of_mem Prod.fst hp)

theorem length_assocErase_mem {α : Type} (l : List (String × α)) (k : String)
    (v : α) (hnd : (l.map Prod.fst).Nodup) (h : lookupA l k = some v) :
    (assocErase l k).length + 1 = l.length := by
  induction l with
  | nil => simp [lookupA] at h
  | cons a t ih =>
    simp only [List.map_cons, List.nodup_cons] at hnd
    obtain ⟨hnotin, hnd'⟩ := hnd
    by_cases ha : a.1 = k
    · have ht : assocErase t k = t := assocErase_of_not_mem t k (ha ▸ hnotin)
      unfold assocErase
      rw [List.filter_cons]
      have hcond : (decide (a.1 ≠ k)) = false := by simp [ha]
      rw [hcond]
      unfold assocErase at ht
      simp only [Bool.false_eq_true, if_false]
      rw [ht]
      simp
    · simp only [lookupA, if_neg ha] at h
      have hrec := ih hnd' h
      unfold assocErase at hrec ⊢
      rw [List.filter_cons]
      have hcond : (decide (a.1 ≠ k)) = true := by simp [ha]
      rw [hcond]
      simp only [if_true, List.length_cons]
      omega

theorem handleDisconnectRoom_eq (room : Room) (conn : String) :
    handleDisconnectRoom room conn =
      if (lookupA room.players conn).isSome then
        (if (assocErase room.players conn).length = 0 then none
         else some { room with
           players := assocErase room.players conn,
           currentPlayerId :=
             if room.currentPlayerId = some conn then
               nextPlayerId (assocErase room.players conn) (some conn)
             else room.currentPlayerId })
      else some room := by
  unfold handleDisconnectRoom
  cases h : lookupA room.players conn with
  | none => rfl
  | some pl => rfl

theorem nextPlayerId_absent (players : List (String × Player)) (c : String)
    (hne : players ≠ []) (hnotmem : c ∉ players.map Prod.fst) :
    nextPlayerId players (some c) = (players.map Prod.fst)[0]? := by
  have hemp : (players.map Prod.fst).isEmpty = false := by
    cases players with
    | nil => exact absurd rfl hne
    | cons a t => simp
  unfold nextPlayerId
  rw [if_neg (by simp [hemp])]
  have hfind : (players.map Prod.fst).findIdx? (fun x => x = c) = none := by
    rw [List.findIdx?_eq_none_iff]
    intro x hx
    simp only [decide_eq_false_iff_not]
    intro hxc
    exact hnotmem (hxc ▸ hx)
  have hb : (some c).bind
      (fun x => (players.map Prod.fst).findIdx? (fun y => y = x)) =
      (players.map Prod.fst).findIdx? (fun y => y = c) := rfl
  rw [hb, hfind]
  rfl

/-! ## Preservation scaffold for reachability invariants -/

theorem applyRoom_preserves (P : Room → Prop) (rooms : Registry)
    (code : String) (f : Room → Option Room)
    (hreg : ∀ e ∈ rooms, P e.2)
    (hf : ∀ room r, P room → f room = some r → P r) :
    ∀ e ∈ applyRoom rooms code f, P e.2 := by
  intro e he
  unfold applyRoom at he
  cases hlook : lookupA rooms code with
  | none =>
    rw [hlook] at he
    exact hreg e he
  | some room =>
    rw [hlook] at he
    have he2 : e ∈ (match f room with
      | none => rooms
      | some r => assocSet rooms code r) := he
    cases hfr : f room with
    | none =>
      rw [hfr] at he2
      exact hreg e he2
    | some r =>
      rw [hfr] at he2
      have he3 : e ∈ assocSet rooms code r := he2
      rcases mem_assocSet rooms code r e he3 with h | h
      · rw [h]
        exact hf room r (hreg _ (lookupA_mem rooms code room hlook)) hfr
      · exact hreg e h

theorem stepAct_preserves (P : Room → Prop)
    (hnew : ∀ conn, P (newRoom conn))
    (hjoin : ∀ room conn name, P room →
      P { room with
          players := assocSet room.players conn (Player.mk name 0)
          currentPlayerId :=
            (match room.currentPlayerId with
            | none => some conn
            | some c => some c) })
    (hpuzzle : ∀ room conn category phrase r, P room →
      setPuzzle room conn category phrase = some r → P r)
    (hspin : ∀ room conn idx r, P room →
      spinWheel room conn idx = some r → P r)
    (hguess : ∀ room conn letter out, P room →
      guessLetter room conn letter = some out → P out.1)
    (hsolve : ∀ room conn guess out, P room →
      solvePuzzle room conn guess = some out → P out.1)
    (hnext : ∀ room conn r, P room →
      nextPlayerAct room conn = some r → P r)
    (hdisc : ∀ room conn r, P room →
      handleDisconnectRoom room conn = some r → P r)
    (rooms : Registry) (hreg : ∀ e ∈ rooms, P e.2) (a : Act) :
    ∀ e ∈ stepAct rooms a, P e.2 := by
  cases a with
  | create conn code =>
    intro e he
    simp only [stepAct] at he
    unfold createRoom at he
    rcases mem_assocSet rooms code (newRoom conn) e he with h | h
    · rw [h]
      exact hnew conn
    · exact hreg e h
  | join conn code name =>
    intro e he
    simp only [stepAct] at he
    cases hlook : lookupA rooms code with
    | none =>
      have h1 : (joinRoom rooms conn code name).1 = rooms := by
        unfold joinRoom
        rw [hlook]
      rw [h1] at he
      exact hreg e he
    | some room =>
      by_cases hfull : room.players.length ≥ 6
      · have h1 : (joinRoom rooms conn code name).1 = rooms := by
          unfold joinRoom
          simp only [hlook]
          rw [if_pos hfull]
        rw [h1] at he
        exact hreg e he
      · have h1 : (joinRoom rooms conn code name).1 =
            assocSet rooms code
              { room with
                players := assocSet room.players conn (Player.mk name 0)
                currentPlayerId :=
                  (match room.currentPlayerId with
                  | none => some conn
                  | some c => some c) } := by
          unfold joinRoom
          simp only [hlook]
          rw [if_neg hfull]
        rw [h1] at he
        rcases mem_assocSet rooms code _ e he with h | h
        · rw [h]
          exact hjoin room conn name
            (hreg _ (lookupA_mem rooms code room hlook))
        · exact hreg e h
  | puzzle conn code category phrase =>
    intro e he
    simp only [stepAct] at he
    exact applyRoom_preserves P rooms code _ hreg
      (fun room r hP hf => hpuzzle room conn category phrase r hP hf) e he
  | spin conn code idx =>
    intro e he
    simp only [stepAct] at he
    exact applyRoom_preserves P rooms code _ hreg
      (fun room r hP hf => hspin room conn idx r hP hf) e he
  | guess conn code letter =>
    intro e he
    simp only [stepAct] at he
    refine applyRoom_preserves P rooms code _ hreg ?_ e he
    intro room r hP hf
    rw [Option.map_eq_some'] at hf
    obtain ⟨out, hout, hfr⟩ := hf
    rw [← hfr]
    exact hguess room conn letter out hP hout
  | solve conn code guess =>
    intro e he
    simp only [stepAct] at he
    refine applyRoom_preserves P rooms code _ hreg ?_ e he
    intro room r hP hf
    rw [Option.map_eq_some'] at hf
    obtain ⟨out, hout, hfr⟩ := hf
    rw [← hfr]
    exact hsolve room conn guess out hP hout
  | next conn code =>
    intro e he
    simp only [stepAct] at he
    exact applyRoom_preserves P rooms code _ hreg
      (fun room r hP hf => hnext room conn r hP hf) e he
  | disconnect conn =>
    intro e he
    simp only [stepAct] at he
    unfold handleDisconnect at he
    rw [List.mem_filterMap] at he
    obtain ⟨a, ha, heq⟩ := he
    cases hd : handleDisconnectRoom a.2 conn with
    | none =>
      rw [hd] at heq
      simp at heq
    | some r =>
      rw [hd] at heq
      simp only [Option.map_some'] at heq
      have heq2 := Option.some.inj heq
      rw [← heq2]
      exact hdisc a.2 conn r (hreg a ha) hd

theorem runActs_preserves (P : Room → Prop)
    (hnew : ∀ conn, P (newRoom conn))
    (hjoin : ∀ room conn name, P room →
      P { room with
          players := assocSet room.players conn (Player.mk name 0)
          currentPlayerId :=
            (match room.currentPlayerId with
            | none => some conn
            | some c => some c) })
    (hpuzzle : ∀ room conn category phrase r, P room →
      setPuzzle room conn category phrase = some r → P r)
    (hspin : ∀ room conn idx r, P room →
      spinWheel room conn idx = some r → P r)
    (hguess : ∀ room conn letter out, P room →
      guessLetter room conn letter = some out → P out.1)
    (hsolve : ∀ room conn guess out, P room →
      solvePuzzle room conn guess = some out → P out.1)
    (hnext : ∀ room conn r, P room →
      nextPlayerAct room conn = some r → P r)
    (hdisc : ∀ room conn r, P room →
      handleDisconnectRoom room conn = some r → P r)
    (acts : List Act) :
    ∀ rooms : Registry, (∀ e ∈ rooms, P e.2) →
      ∀ e ∈ runActs rooms acts, P e.2 := by
  induction acts with
  | nil =>
    intro rooms h
    exact h
  | cons a t ih =>
    intro rooms h
    exact ih (stepAct rooms a)
      (stepAct_preserves P hnew hjoin hpuzzle hspin hguess hsolve hnext hdisc
        rooms h a)

theorem reachable_preserves (P : Room → Prop)
    (hnew : ∀ conn, P (newRoom conn))
    (hjoin : ∀ room conn name, P room →
      P { room with
          players := assocSet room.players conn (Player.mk name 0)
          currentPlayerId :=
            (match room.currentPlayerId with
            | none => some conn
            | some c => some c) })
    (hpuzzle : ∀ room conn category phrase r, P room →
      setPuzzle room conn category phrase = some r → P r)
    (hspin : ∀ room conn idx r, P room →
      spinWheel room conn idx = some r → P r)
    (hguess : ∀ room conn letter out, P room →
      guessLetter room conn letter = some out → P out.1)
    (hsolve : ∀ room conn guess out, P room →
      solvePuzzle room conn guess = some out → P out.1)
    (hnext : ∀ room conn r, P room →
      nextPlayerAct room conn = some r → P r)
    (hdisc : ∀ room conn r, P room →
      handleDisconnectRoom room conn = some r → P r)
    (rooms : Registry) (h : ReachableRegistry rooms) :
    ∀ e ∈ rooms, P e.2 := by
  obtain ⟨acts, hacts⟩ := h
  rw [← hacts]
  refine runActs_preserves P hnew hjoin hpuzzle hspin hguess hsolve hnext hdisc
    acts [] ?_
  intro e he
  simp at he

/-! ## Claim theorems -/

/-- C3, counterexample: for the phrase consisting of the single placeholder
character and the empty revealed set, the mask equals the phrase at index 0
even though that character is neither a space nor revealed — so
`mask[i] = P[i]` does not hold *only if* `P[i]` is a space or revealed. -/
theorem C3_counterexample :
    (buildMaskedPhrase ['_'] [])[0]? = some '_' ∧
    ¬ ('_' = ' ' ∨ '_' ∈ ([] : List Char)) := by
  decide

/-- C3, amended: the mask has the length of the phrase, and position by
position it equals the phrase character when that character is a space or a
revealed letter, and is the placeholder character otherwise (the placeholder
may coincide with the phrase character when the phrase itself contains the
placeholder, so equality with the phrase is not *only* at spaces and
revealed letters). -/
theorem C3_buildMaskedPhrase_spec (P S : List Char) :
    (buildMaskedPhrase P S).length = P.length ∧
    ∀ i : Nat, (buildMaskedPhrase P S)[i]? =
      P[i]?.map (fun c => if c = ' ' ∨ c ∈ S then c else '_') := by
  constructor
  · simp [buildMaskedPhrase]
  · intro i
    simp only [buildMaskedPhrase, List.getElem?_map]
    cases P[i]? with
    | none => rfl
    | some c =>
      by_cases hsp : c = ' '
      · simp [hsp]
      · by_cases hs : c ∈ S <;> simp [hsp, hs]

/-- C4: the Turn Sequencer returns `none` on an empty mapping; on a
non-empty mapping it returns a key of the mapping; when the current
identifier sits at index `idx` of the key list it returns the key at index
`(idx + 1) mod length` (the next key, wrapping to the first); and when the
current identifier is `none` or absent from the keys it returns the first
key. -/
theorem C4_nextPlayerId_spec (players : List (String × Player))
    (currentId : Option String) :
    (players = [] → nextPlayerId players currentId = none) ∧
    (players ≠ [] →
      ∃ k, nextPlayerId players currentId = some k ∧ k ∈ players.map Prod.fst) ∧
    (∀ c idx, currentId = some c →
      (players.map Prod.fst).findIdx? (fun x => x = c) = some idx →
      nextPlayerId players currentId =
        (players.map Prod.fst)[(idx + 1) % (players.map Prod.fst).length]?) ∧
    (players ≠ [] →
      (currentId = none ∨
        ∃ c, currentId = some c ∧ c ∉ players.map Prod.fst) →
      nextPlayerId players currentId = (players.map Prod.fst)[0]?) := by
  refine ⟨?_, ?_, ?_, ?_⟩
  · intro h
    subst h
    rfl
  · intro hne
    have hlen : 0 < (players.map Prod.fst).length := by
      simpa [List.length_pos] using hne
    have hemp : (players.map Prod.fst).isEmpty = false := by
      cases players with
      | nil => exact absurd rfl hne
      | cons a t => simp
    unfold nextPlayerId
    rw [if_neg (by simp [hemp])]
    cases hidx : currentId.bind
        (fun c => (players.map Prod.fst).findIdx? (fun x => x = c)) with
    | none =>
      exact ⟨(players.map Prod.fst)[0], List.getElem?_eq_getElem hlen,
        List.getElem_mem hlen⟩
    | some idx =>
      have hmod : (idx + 1) % (players.map Prod.fst).length <
          (players.map Prod.fst).length := Nat.mod_lt _ hlen
      exact ⟨(players.map Prod.fst)[(idx + 1) % (players.map Prod.fst).length],
        List.getElem?_eq_getElem hmod, List.getElem_mem hmod⟩
  · intro c idx hcur hfind
    unfold nextPlayerId
    have hlt : idx < (players.map Prod.fst).length :=
      findIdx?_some_lt (fun x => x = c) (players.map Prod.fst) idx hfind
    have hemp : (players.map Prod.fst).isEmpty = false := by
      cases players with
      | nil => simp at hlt
      | cons a t => simp
    rw [if_neg (by simp [hemp]), hcur]
    have hb : (some c).bind
        (fun x => (players.map Prod.fst).findIdx? (fun y => y = x)) =
        (players.map Prod.fst).findIdx? (fun y => y = c) := rfl
    rw [hb, hfind]
    rfl
  · intro hne habs
    have hemp : (players.map Prod.fst).isEmpty = false := by
      cases players with
      | nil => exact absurd rfl hne
      | cons a t => simp
    unfold nextPlayerId
    rw [if_neg (by simp [hemp])]
    rcases habs with hnone | ⟨c, hcur, hnotmem⟩
    · rw [hnone]
      rfl
    · have hfind : (players.map Prod.fst).findIdx? (fun x => x = c) = none := by
        rw [List.findIdx?_eq_none_iff]
        intro x hx
        simp only [decide_eq_false_iff_not]
        intro hxc
        exact hnotmem (hxc ▸ hx)
      rw [hcur]
      have hb : (some c).bind
          (fun x => (players.map Prod.fst).findIdx? (fun y => y = x)) =
          (players.map Prod.fst).findIdx? (fun y => y = c) := rfl
      rw [hb, hfind]
      rfl

/-- C1: in a room in status `guessing` with a pending money-segment spin, an
accepted letter guess by the current player adds the letter to the revealed
set, recomputes the masked phrase from it, clears the spin, moves to status
`waiting` — or `solved` with the flag set when the new mask equals the
phrase — and acknowledges success with the occurrence count; on a hit the
acting player gains `count × segment.value` and keeps the turn, on a miss
no score changes and the turn advances to the next player. -/
theorem C1_guessLetter_spec (room : Room) (conn : String) (letter : List Char)
    (u : Char) (seg : Spin) (pl : Player)
    (hcur : room.currentPlayerId = some conn)
    (hst : room.status = Status.guessing)
    (hspin : room.currentSpin = some seg)
    (hmoney : seg.type = SegType.money)
    (hupper : jsToUpper letter = [u])
    (hval : 'A' ≤ u ∧ u ≤ 'Z')
    (hfresh : u ∉ room.usedLetters)
    (hpl : lookupA room.players conn = some pl) :
    ∃ r, guessLetter room conn letter =
        some (r, GuessAck.success (room.phrase.count u)) ∧
      r.usedLetters = room.usedLetters ++ [u] ∧
      r.maskedPhrase = buildMaskedPhrase room.phrase (room.usedLetters ++ [u]) ∧
      r.currentSpin = none ∧
      (r.maskedPhrase = room.phrase → r.status = Status.solved ∧ r.solved = true) ∧
      (r.maskedPhrase ≠ room.phrase →
        r.status = Status.waiting ∧ r.solved = room.solved) ∧
      (0 < room.phrase.count u →
        lookupA r.players conn =
          some ⟨pl.name, pl.score + seg.value * room.phrase.count u⟩ ∧
        (∀ c, c ≠ conn → lookupA r.players c = lookupA room.players c) ∧
        r.currentPlayerId = room.currentPlayerId) ∧
      (room.phrase.count u = 0 →
        r.players = room.players ∧
        r.currentPlayerId = nextPlayerId room.players (some conn)) := by
  unfold guessLetter
  rw [hupper, hcur, hst, hspin]
  simp only [ne_eq, not_true_eq_false, if_false, reduceCtorEq, hval, and_self,
    hfresh, not_false_eq_true, if_true, ite_false, ite_true]
  by_cases hcount : room.phrase.count u = 0
  · have hnothit : ¬ (room.phrase.count u > 0 ∧ seg.type = SegType.money) := by
      intro h
      omega
    rw [if_neg hnothit, if_pos hcount]
    by_cases hdone : buildMaskedPhrase room.phrase (room.usedLetters ++ [u]) =
        room.phrase
    · rw [if_pos hdone]
      refine ⟨_, rfl, rfl, rfl, rfl, fun _ => ⟨rfl, rfl⟩,
        fun h => absurd hdone h, fun h => absurd hcount (by omega),
        fun _ => ⟨rfl, rfl⟩⟩
    · rw [if_neg hdone]
      refine ⟨_, rfl, rfl, rfl, rfl, fun h => absurd h hdone,
        fun _ => ⟨rfl, rfl⟩, fun h => absurd hcount (by omega),
        fun _ => ⟨rfl, rfl⟩⟩
  · have hhit : room.phrase.count u > 0 ∧ seg.type = SegType.money :=
      ⟨Nat.pos_of_ne_zero hcount, hmoney⟩
    rw [if_pos hhit]
    by_cases hdone : buildMaskedPhrase room.phrase (room.usedLetters ++ [u]) =
        room.phrase
    · rw [if_pos hdone]
      refine ⟨_, rfl, rfl, rfl, rfl, fun _ => ⟨rfl, rfl⟩,
        fun h => absurd hdone h, fun _ => ?_, fun h => absurd h hcount⟩
      exact ⟨lookupA_addScore_self room.players conn _ pl hpl,
        fun c hc => lookupA_addScore_ne room.players conn c _ hc, rfl⟩
    · rw [if_neg hdone]
      refine ⟨_, rfl, rfl, rfl, rfl, fun h => absurd h hdone,
        fun _ => ⟨rfl, rfl⟩, fun _ => ?_, fun h => absurd h hcount⟩
      exact ⟨lookupA_addScore_self room.players conn _ pl hpl,
        fun c hc => lookupA_addScore_ne room.players conn c _ hc, rfl⟩

/-- C1 witness: a concrete room (phrase `APP`, pending $300 money spin,
current player `p1` with score 5) where guessing `p` reveals two letters. -/
theorem C1_guessLetter_spec_witness :
    ∃ r, guessLetter
        ⟨"h", [("p1", ⟨"A", 5⟩), ("p2", ⟨"B", 0⟩)], "cat",
          ['A', 'P', 'P'], ['_', '_', '_'], [], some "p1",
          some ⟨2, SegType.money, 300, "+$300"⟩, Status.guessing, false⟩
        "p1" ['p'] = some (r, GuessAck.success 2) ∧
      lookupA r.players "p1" = some ⟨"A", 605⟩ := by
  obtain ⟨r, h1, -, -, -, -, -, h7, -⟩ :=
    C1_guessLetter_spec
      ⟨"h", [("p1", ⟨"A", 5⟩), ("p2", ⟨"B", 0⟩)], "cat",
        ['A', 'P', 'P'], ['_', '_', '_'], [], some "p1",
        some ⟨2, SegType.money, 300, "+$300"⟩, Status.guessing, false⟩
      "p1" ['p'] 'P' ⟨2, SegType.money, 300, "+$300"⟩ ⟨"A", 5⟩
      rfl rfl rfl rfl rfl (by decide) (by decide) rfl
  obtain ⟨h7a, -, -⟩ := h7 (by decide)
  exact ⟨r, h1, h7a⟩

/-- C4 witness: with players `a, b` and current player `a`, the sequencer
returns `b`. -/
theorem C4_nextPlayerId_spec_witness :
    nextPlayerId [("a", ⟨"A", 0⟩), ("b", ⟨"B", 0⟩)] (some "a") = some "b" := by
  have h := (C4_nextPlayerId_spec [("a", ⟨"A", 0⟩), ("b", ⟨"B", 0⟩)]
    (some "a")).2.2.1 "a" 0 rfl (by decide)
  exact h.trans (by decide)

/-- C2: on an unsolved room, a solve attempt by the current player whose
uppercased and trimmed guess equals the phrase sets `solved`, status
`solved`, `maskedPhrase = phrase`, and adds exactly 1000 to the acting
player's score, leaving the turn and all other scores alone, and is
acknowledged as correct; a differing guess changes no scores, advances the
turn via the sequencer, and is acknowledged as incorrect. -/
theorem C2_solvePuzzle_spec (room : Room) (conn : String) (guess : List Char)
    (pl : Player)
    (hsol : room.solved = false)
    (hcur : room.currentPlayerId = some conn)
    (hpl : lookupA room.players conn = some pl) :
    (jsTrim (jsToUpper guess) = room.phrase →
      ∃ r, solvePuzzle room conn guess = some (r, true) ∧
        r.solved = true ∧ r.status = Status.solved ∧
        r.maskedPhrase = room.phrase ∧
        lookupA r.players conn = some ⟨pl.name, pl.score + 1000⟩ ∧
        (∀ c, c ≠ conn → lookupA r.players c = lookupA room.players c) ∧
        r.currentPlayerId = room.currentPlayerId) ∧
    (jsTrim (jsToUpper guess) ≠ room.phrase →
      ∃ r, solvePuzzle room conn guess = some (r, false) ∧
        r.players = room.players ∧
        r.currentPlayerId = nextPlayerId room.players (some conn) ∧
        r.solved = room.solved ∧ r.status = room.status ∧
        r.maskedPhrase = room.maskedPhrase) := by
  unfold solvePuzzle
  rw [hcur, hsol]
  rw [if_neg (by simp), if_neg (by simp)]
  constructor
  · intro hcorrect
    rw [if_pos hcorrect]
    exact ⟨_, rfl, rfl, rfl, rfl,
      lookupA_addScore_self room.players conn 1000 pl hpl,
      fun c hc => lookupA_addScore_ne room.players conn c 1000 hc, rfl⟩
  · intro hwrong
    rw [if_neg hwrong]
    exact ⟨_, rfl, rfl, rfl, rfl, rfl, rfl⟩

/-- C2 witness: a one-player room with phrase `HI`; solving with `hi`
succeeds and pays the 1000 bonus. -/
theorem C2_solvePuzzle_spec_witness :
    ∃ r, solvePuzzle
        ⟨"h", [("p1", ⟨"A", 3⟩)], "c", ['H', 'I'], ['_', '_'], [],
          some "p1", none, Status.waiting, false⟩
        "p1" ['h', 'i'] = some (r, true) ∧
      lookupA r.players "p1" = some ⟨"A", 1003⟩ := by
  obtain ⟨r, h1, -, -, -, h5, -⟩ :=
    (C2_solvePuzzle_spec
      ⟨"h", [("p1", ⟨"A", 3⟩)], "c", ['H', 'I'], ['_', '_'], [],
        some "p1", none, Status.waiting, false⟩
      "p1" ['h', 'i'] ⟨"A", 3⟩ rfl rfl rfl).1 (by decide)
  exact ⟨r, h1, h5⟩

/-- C9: `joinRoom` on an unknown code fails with the room-not-found message
and leaves the registry unchanged; on a room with 6 players it fails with
the room-full message (for every caller, so a 7th attempt always fails) and
leaves the registry unchanged; on a room with fewer than 6 players it is
acknowledged `ok`, the joining connection is a player with score 0, the
joiner becomes current exactly when no current player was set, a connection
that was not yet a player raises the player count by one (so the 6th
distinct join fills the room exactly), and no other room changes. -/
theorem C9_joinRoom_spec (rooms : Registry) (conn roomCode name : String) :
    (lookupA rooms roomCode = none →
      joinRoom rooms conn roomCode name =
        (rooms, JoinAck.failure "Room not found")) ∧
    (∀ room, lookupA rooms roomCode = some room → room.players.length = 6 →
      joinRoom rooms conn roomCode name =
        (rooms, JoinAck.failure "Room full (max 6).")) ∧
    (∀ room, lookupA rooms roomCode = some room → room.players.length < 6 →
      (joinRoom rooms conn roomCode name).2 = JoinAck.ok ∧
      ∃ room2,
        lookupA (joinRoom rooms conn roomCode name).1 roomCode = some room2 ∧
        lookupA room2.players conn = some ⟨name, 0⟩ ∧
        (room.currentPlayerId = none → room2.currentPlayerId = some conn) ∧
        (∀ p, room.currentPlayerId = some p →
          room2.currentPlayerId = some p) ∧
        (lookupA room.players conn = none →
          room2.players.length = room.players.length + 1) ∧
        (∀ c, c ≠ roomCode →
          lookupA (joinRoom rooms conn roomCode name).1 c =
            lookupA rooms c)) := by
  refine ⟨?_, ?_, ?_⟩
  · intro h
    unfold joinRoom
    rw [h]
  · intro room h hlen
    unfold joinRoom
    simp only [h, hlen]
    rw [if_pos (by omega)]
  · intro room h hlen
    unfold joinRoom
    simp only [h]
    rw [if_neg (by omega)]
    refine ⟨rfl, _, lookupA_assocSet_self rooms roomCode _,
      lookupA_assocSet_self room.players conn ⟨name, 0⟩, ?_, ?_, ?_, ?_⟩
    · intro hnone
      simp only [hnone]
    · intro p hp
      simp only [hp]
    · intro hnew
      exact length_assocSet_new room.players conn ⟨name, 0⟩ hnew
    · intro c hc
      exact lookupA_assocSet_ne rooms roomCode c _ hc

/-- C9 witness: joining a fresh one-room registry adds a player with
score 0. -/
theorem C9_joinRoom_spec_witness :
    (joinRoom [("R", newRoom "h")] "p1" "R" "Alice").2 = JoinAck.ok := by
  obtain ⟨hok, -⟩ :=
    (C9_joinRoom_spec [("R", newRoom "h")] "p1" "R" "Alice").2.2
      (newRoom "h") rfl (by decide)
  exact hok

/-- C10, counterexample: in a room that already has 6 players, a second
`joinRoom` by the member `p1` does not replace its entry — it fails with the
room-full message and leaves the registry unchanged, because the capacity
check precedes the membership write. -/
theorem C10_counterexample :
    joinRoom
      [("R", ⟨"h",
        [("p1", ⟨"x", 7⟩), ("p2", ⟨"x", 0⟩), ("p3", ⟨"x", 0⟩),
         ("p4", ⟨"x", 0⟩), ("p5", ⟨"x", 0⟩), ("p6", ⟨"x", 0⟩)],
        "", [], [], [], some "p1", none, Status.waiting, false⟩)]
      "p1" "R" "newname" =
    ([("R", ⟨"h",
        [("p1", ⟨"x", 7⟩), ("p2", ⟨"x", 0⟩), ("p3", ⟨"x", 0⟩),
         ("p4", ⟨"x", 0⟩), ("p5", ⟨"x", 0⟩), ("p6", ⟨"x", 0⟩)],
        "", [], [], [], some "p1", none, Status.waiting, false⟩)],
     JoinAck.failure "Room full (max 6).") := by
  rfl

/-- C10, amended: a `joinRoom` by a connection that is already a player of
that room succeeds *when the room has fewer than 6 players*, replacing the
existing entry (score reset to 0, display name overwritten) without adding
a player, and leaving `currentPlayerId` unchanged whenever one is set. -/
theorem C10_joinRoom_rejoin (rooms : Registry) (conn roomCode name : String)
    (room : Room) (pl : Player) (p : String)
    (hlook : lookupA rooms roomCode = some room)
    (hlen : room.players.length < 6)
    (hmem : lookupA room.players conn = some pl)
    (hcur : room.currentPlayerId = some p) :
    (joinRoom rooms conn roomCode name).2 = JoinAck.ok ∧
    ∃ room2,
      lookupA (joinRoom rooms conn roomCode name).1 roomCode = some room2 ∧
      lookupA room2.players conn = some ⟨name, 0⟩ ∧
      room2.players.length = room.players.length ∧
      room2.currentPlayerId = some p ∧
      (∀ c, c ≠ conn → lookupA room2.players c = lookupA room.players c) := by
  unfold joinRoom
  simp only [hlook, hcur]
  rw [if_neg (by omega)]
  refine ⟨rfl, _, lookupA_assocSet_self rooms roomCode _,
    lookupA_assocSet_self room.players conn ⟨name, 0⟩, ?_, rfl, ?_⟩
  · exact length_assocSet_found room.players conn ⟨name, 0⟩
      (by rw [hmem]; rfl)
  · intro c hc
    exact lookupA_assocSet_ne room.players conn c ⟨name, 0⟩ hc

/-- C10 witness (amended claim): `p1` rejoining a two-player room gets its
score reset to 0 and its name overwritten; the current player stays `p2`. -/
theorem C10_joinRoom_rejoin_witness :
    (joinRoom
      [("R", ⟨"h", [("p1", ⟨"old", 44⟩), ("p2", ⟨"b", 1⟩)], "", [], [], [],
        some "p2", none, Status.waiting, false⟩)]
      "p1" "R" "new").2 = JoinAck.ok := by
  obtain ⟨hok, -⟩ :=
    C10_joinRoom_rejoin
      [("R", ⟨"h", [("p1", ⟨"old", 44⟩), ("p2", ⟨"b", 1⟩)], "", [], [], [],
        some "p2", none, Status.waiting, false⟩)]
      "p1" "R" "new"
      ⟨"h", [("p1", ⟨"old", 44⟩), ("p2", ⟨"b", 1⟩)], "", [], [], [],
        some "p2", none, Status.waiting, false⟩
      ⟨"old", 44⟩ "p2" rfl (by decide) rfl rfl
  exact hok

/-- C5, counterexample: in a room with players `p1, p2, p3` (in join order)
and current player `p2`, disconnecting `p2` makes `p1` — the *first*
remaining player — current, not `p3`, the player who followed the departing
one in join order (the player entry is deleted before `nextPlayerId` runs,
so the `indexOf` fallback returns the first key). -/
theorem C5_counterexample :
    (handleDisconnect
      [("R", ⟨"h", [("p1", ⟨"A", 0⟩), ("p2", ⟨"B", 0⟩), ("p3", ⟨"C", 0⟩)],
        "", [], [], [], some "p2", none, Status.waiting, false⟩)]
      "p2").map (fun e => (e.1, e.2.currentPlayerId)) = [("R", some "p1")] ∧
    ("p1" : String) ≠ "p3" := by
  exact ⟨rfl, by decide⟩

/-- C5, amended: disconnecting the only player of a room deletes the room
from the registry; disconnecting the current player of a room with at least
two players removes that player and reassigns `currentPlayerId` to the
*first* remaining player in join order (the Turn Sequencer is consulted
after the deletion, so its absent-key fallback applies). -/
theorem C5_handleDisconnect_spec (rooms : Registry) (conn code : String)
    (room : Room)
    (hnd : (rooms.map Prod.fst).Nodup)
    (hlook : lookupA rooms code = some room) :
    (∀ pl, room.players = [(conn, pl)] →
      lookupA (handleDisconnect rooms conn) code = none) ∧
    ((room.players.map Prod.fst).Nodup → 2 ≤ room.players.length →
      room.currentPlayerId = some conn →
      (∃ pl, lookupA room.players conn = some pl) →
      ∃ room2, lookupA (handleDisconnect rooms conn) code = some room2 ∧
        room2.players = assocErase room.players conn ∧
        room2.currentPlayerId =
          ((assocErase room.players conn).map Prod.fst)[0]? ∧
        room2.players.length + 1 = room.players.length) := by
  rw [lookupA_handleDisconnect rooms conn code hnd, hlook]
  have hbind : (some room).bind (fun r => handleDisconnectRoom r conn) =
      handleDisconnectRoom room conn := rfl
  rw [hbind]
  constructor
  · intro pl hpl
    rw [handleDisconnectRoom_eq, hpl]
    simp [lookupA, assocErase]
  · intro hndp hlen hcur hpl
    obtain ⟨pl, hpl⟩ := hpl
    have herase : (assocErase room.players conn).length + 1 =
        room.players.length :=
      length_assocErase_mem room.players conn pl hndp hpl
    have hz : ¬ ((assocErase room.players conn).length = 0) := by omega
    have hne : assocErase room.players conn ≠ [] := by
      intro hh
      rw [hh] at hz
      exact hz rfl
    have hps : (lookupA room.players conn).isSome = true := by
      rw [hpl]
      rfl
    rw [handleDisconnectRoom_eq, if_pos hps, if_neg hz, hcur, if_pos rfl]
    refine ⟨_, rfl, rfl, ?_, ?_⟩
    · exact nextPlayerId_absent (assocErase room.players conn) conn hne
        (assocErase_not_mem_keys room.players conn)
    · exact herase

/-- C5 witness: disconnecting current player `p2` of a three-player room
leaves a room whose current player is `p1`. -/
theorem C5_handleDisconnect_spec_witness :
    ∃ room2, lookupA (handleDisconnect
      [("R", ⟨"h", [("p1", ⟨"A", 0⟩), ("p2", ⟨"B", 0⟩), ("p3", ⟨"C", 0⟩)],
        "", [], [], [], some "p2", none, Status.waiting, false⟩)]
      "p2") "R" = some room2 ∧
      room2.currentPlayerId = some "p1" := by
  obtain ⟨room2, h1, -, h3, -⟩ :=
    (C5_handleDisconnect_spec
      [("R", ⟨"h", [("p1", ⟨"A", 0⟩), ("p2", ⟨"B", 0⟩), ("p3", ⟨"C", 0⟩)],
        "", [], [], [], some "p2", none, Status.waiting, false⟩)]
      "p2" "R"
      ⟨"h", [("p1", ⟨"A", 0⟩), ("p2", ⟨"B", 0⟩), ("p3", ⟨"C", 0⟩)],
        "", [], [], [], some "p2", none, Status.waiting, false⟩
      (by decide) rfl).2
      (by decide) (by decide) rfl ⟨⟨"B", 0⟩, rfl⟩
  exact ⟨room2, h1, h3.trans (by decide)⟩

/-- C8, counterexample: `createRoom` installs a room with an *empty* player
mapping, and that registry state is reachable and persists — so a
registered room can have zero players (until the first join). -/
theorem C8_counterexample :
    runActs [] [Act.create "h" "R"] = [("R", newRoom "h")] ∧
    (newRoom "h").players = [] := by
  exact ⟨rfl, rfl⟩

/-- C8, amended: a disconnect never *leaves behind* an emptied room — any
room surviving `handleDisconnect` with an empty player mapping was already
in the registry with that empty mapping (rooms emptied by the departure are
deleted); rooms created and not yet joined, however, do persist with zero
players. -/
theorem C8_disconnect_preserves_nonempty (rooms : Registry) (conn : String)
    (e : String × Room) (he : e ∈ handleDisconnect rooms conn)
    (hemp : e.2.players = []) : e ∈ rooms := by
  unfold handleDisconnect at he
  rw [List.mem_filterMap] at he
  obtain ⟨a, ha, heq⟩ := he
  cases hd : handleDisconnectRoom a.2 conn with
  | none =>
    rw [hd] at heq
    simp at heq
  | some r =>
    rw [hd] at heq
    simp only [Option.map_some'] at heq
    have heq2 := Option.some.inj heq
    rw [handleDisconnectRoom_eq] at hd
    split_ifs at hd with hmem hz hcurq
    all_goals
      first
        | exact Option.noConfusion hd
        | (have hr := Option.some.inj hd
           have hemp2 : r.players = [] := by
             rw [← heq2] at hemp
             exact hemp
           rw [← hr] at hemp2
           have hemp3 : assocErase a.2.players conn = [] := hemp2
           exact absurd (by rw [hemp3]; rfl) hz)
        | (have hr := Option.some.inj hd
           rw [← heq2, ← hr]
           cases a
           exact ha)

/-- C8 witness: a never-joined room is untouched by a stranger's
disconnect. -/
theorem C8_disconnect_preserves_nonempty_witness :
    ("R", newRoom "h") ∈ ([("R", newRoom "h")] : Registry) :=
  C8_disconnect_preserves_nonempty [("R", newRoom "h")] "x"
    ("R", newRoom "h") (by decide) rfl

/-- C6, counterexample: the trace create, join, setPuzzle `AB`, spin a money
segment, then correctly solve reaches a room with `status = solved` while
`currentSpin` is still set (the `solvePuzzle` handler never clears it), so
`currentSpin` is not none-only outside `guessing`/`spinning`. -/
theorem C6_counterexample :
    (runActs [] [Act.create "h" "R", Act.join "p1" "R" "A",
      Act.puzzle "h" "R" "X" ['a', 'b'], Act.spin "p1" "R" 0,
      Act.solve "p1" "R" ['a', 'b']]).map
      (fun e => (e.2.status, e.2.currentSpin.isSome)) =
    [(Status.solved, true)] := by
  rfl

/-- C6, amended: in every reachable room state, `currentSpin` can be pending
only in status `guessing`, `spinning`, or `solved` (the latter when a
correct `solvePuzzle` landed while a spin was pending); in particular
whenever `status = waiting`, `currentSpin` is none. -/
theorem C6_spin_invariant (rooms : Registry) (h : ReachableRegistry rooms) :
    ∀ e ∈ rooms, e.2.status = Status.waiting → e.2.currentSpin = none := by
  refine reachable_preserves
    (fun r => r.status = Status.waiting → r.currentSpin = none)
    ?_ ?_ ?_ ?_ ?_ ?_ ?_ ?_ rooms h
  · intro conn _
    rfl
  · intro room conn name hP
    exact hP
  · intro room conn category phrase r hP hop
    unfold setPuzzle at hop
    split at hop
    · exact Option.noConfusion hop
    · rw [← Option.some.inj hop]
      intro _
      rfl
  · intro room conn idx r hP hop
    unfold spinWheel at hop
    split at hop
    · exact Option.noConfusion hop
    · split at hop
      · exact Option.noConfusion hop
      · split at hop
        · exact Option.noConfusion hop
        · split at hop
          all_goals
            (rw [← Option.some.inj hop]
             intro hst
             first
               | rfl
               | simp at hst)
  · intro room conn letter out hP hop
    unfold guessLetter at hop
    split at hop
    · exact Option.noConfusion hop
    · split at hop
      · exact Option.noConfusion hop
      · split at hop
        · split at hop
          · rw [← Option.some.inj hop]
            exact hP
          · split at hop
            · rw [← Option.some.inj hop]
              exact hP
            · rw [← Option.some.inj hop]
              split
              · intro hst
                simp at hst
              · intro _
                rfl
        · rw [← Option.some.inj hop]
          exact hP
  · intro room conn guess out hP hop
    simp only [solvePuzzle] at hop
    split at hop
    · exact Option.noConfusion hop
    · split at hop
      · exact Option.noConfusion hop
      · split at hop
        · rw [← Option.some.inj hop]
          intro hst
          simp at hst
        · rw [← Option.some.inj hop]
          intro hst
          exact hP hst
  · intro room conn r hP hop
    unfold nextPlayerAct at hop
    split at hop
    · exact Option.noConfusion hop
    · rw [← Option.some.inj hop]
      intro _
      rfl
  · intro room conn r hP hop
    rw [handleDisconnectRoom_eq] at hop
    split_ifs at hop
    all_goals
      first
        | exact Option.noConfusion hop
        | (rw [← Option.some.inj hop]
           exact hP)

/-- C6 witness: the invariant applied to the reachable one-room registry
produced by a single `createRoom`. -/
theorem C6_spin_invariant_witness :
    (newRoom "h").currentSpin = none :=
  C6_spin_invariant [("R", newRoom "h")] ⟨[Act.create "h" "R"], rfl⟩
    ("R", newRoom "h") (by decide) rfl

/-- C7, counterexample: create, join, setPuzzle `AB`, then a correct
`solvePuzzle` reaches a room where `maskedPhrase = phrase = AB` while
`revealedLetters` is empty — the non-space character `A` is not masked by
the placeholder even though it is not in `revealedLetters`. -/
theorem C7_counterexample :
    (runActs [] [Act.create "h" "R", Act.join "p1" "R" "A",
      Act.puzzle "h" "R" "X" ['a', 'b'],
      Act.solve "p1" "R" ['a', 'b']]).map
      (fun e => (e.2.phrase, e.2.usedLetters, e.2.maskedPhrase)) =
    [(['A', 'B'], [], ['A', 'B'])] ∧
    ('A' : Char) ≠ ' ' ∧ ('A' : Char) ≠ '_' := by
  exact ⟨rfl, by decide, by decide⟩

/-- C7, amended: in every reachable room state, `maskedPhrase` has the
length of `phrase` and shows every space of `phrase` unmasked; moreover
either every non-space character absent from `revealedLetters` is masked by
the placeholder at its position, or the room was solved (by a correct
`solvePuzzle`) and `maskedPhrase` equals `phrase` outright. -/
theorem C7_maskedPhrase_invariant (rooms : Registry)
    (h : ReachableRegistry rooms) :
    ∀ e ∈ rooms,
      e.2.maskedPhrase.length = e.2.phrase.length ∧
      (∀ i : Nat, e.2.phrase[i]? = some ' ' → e.2.maskedPhrase[i]? = some ' ') ∧
      ((∀ i : Nat, ∀ c : Char, e.2.phrase[i]? = some c → c ≠ ' ' →
          c ∉ e.2.usedLetters → e.2.maskedPhrase[i]? = some '_') ∨
        (e.2.solved = true ∧ e.2.maskedPhrase = e.2.phrase)) := by
  have hmain : ∀ e ∈ rooms,
      e.2.maskedPhrase = buildMaskedPhrase e.2.phrase e.2.usedLetters ∨
        (e.2.solved = true ∧ e.2.maskedPhrase = e.2.phrase) := by
    refine reachable_preserves
      (fun r => r.maskedPhrase = buildMaskedPhrase r.phrase r.usedLetters ∨
        (r.solved = true ∧ r.maskedPhrase = r.phrase))
      ?_ ?_ ?_ ?_ ?_ ?_ ?_ ?_ rooms h
    · intro conn
      exact Or.inl rfl
    · intro room conn name hP
      exact hP
    · intro room conn category phrase r hP hop
      unfold setPuzzle at hop
      split at hop
      · exact Option.noConfusion hop
      · rw [← Option.some.inj hop]
        exact Or.inl rfl
    · intro room conn idx r hP hop
      unfold spinWheel at hop
      split at hop
      · exact Option.noConfusion hop
      · split at hop
        · exact Option.noConfusion hop
        · split at hop
          · exact Option.noConfusion hop
          · split at hop
            all_goals
              (rw [← Option.some.inj hop]
               exact hP)
    · intro room conn letter out hP hop
      unfold guessLetter at hop
      split at hop
      · exact Option.noConfusion hop
      · split at hop
        · exact Option.noConfusion hop
        · split at hop
          · split at hop
            · rw [← Option.some.inj hop]
              exact hP
            · split at hop
              · rw [← Option.some.inj hop]
                exact hP
              · rw [← Option.some.inj hop]
                split
                · exact Or.inl rfl
                · exact Or.inl rfl
          · rw [← Option.some.inj hop]
            exact hP
    · intro room conn guess out hP hop
      simp only [solvePuzzle] at hop
      split at hop
      · exact Option.noConfusion hop
      · split at hop
        · exact Option.noConfusion hop
        · split at hop
          · rw [← Option.some.inj hop]
            exact Or.inr ⟨rfl, rfl⟩
          · rw [← Option.some.inj hop]
            exact hP
    · intro room conn r hP hop
      unfold nextPlayerAct at hop
      split at hop
      · exact Option.noConfusion hop
      · rw [← Option.some.inj hop]
        exact hP
    · intro room conn r hP hop
      rw [handleDisconnectRoom_eq] at hop
      split_ifs at hop
      all_goals
        first
          | exact Option.noConfusion hop
          | (rw [← Option.some.inj hop]
             exact hP)
  intro e he
  rcases hmain e he with hb | ⟨hs, hm⟩
  · refine ⟨?_, ?_, Or.inl ?_⟩
    · rw [hb]
      simp [buildMaskedPhrase]
    · intro i hi
      rw [hb]
      simp only [buildMaskedPhrase, List.getElem?_map, hi]
      rfl
    · intro i c hic hcs hcu
      rw [hb]
      simp only [buildMaskedPhrase, List.getElem?_map, hic]
      simp only [Option.map_some']
      rw [if_neg hcs, if_neg hcu]
  · refine ⟨by rw [hm], ?_, Or.inr ⟨hs, hm⟩⟩
    intro i hi
    rw [hm]
    exact hi

/-- C7 witness: the invariant applied to the reachable one-room registry
produced by a single `createRoom`. -/
theorem C7_maskedPhrase_invariant_witness :
    (newRoom "h").maskedPhrase.length = (newRoom "h").phrase.length :=
  (C7_maskedPhrase_invariant [("R", newRoom "h")] ⟨[Act.create "h" "R"], rfl⟩
    ("R", newRoom "h") (by decide)).1

end WofServer
